import Mathlib

/-
Verification of the parallel fuzz-test orchestration engine in
src/scripts/fuzz.py (class FuzzRunner).  The Python code is shallowly
embedded: pure computations become Lean functions, the threaded scheduler
of run_fuzz_tests becomes an explicit small-step transition system, and
external effects (subprocess execution, result-processing exceptions, the
operating-system file enumeration) become explicit inputs.
-/

namespace FuzzSpec

/-- Embedding of the FuzzTarget NamedTuple: directory, function, file_path. -/
structure FuzzTarget where
  directory : String
  function : String
  filePath : String
  deriving DecidableEq, Inhabited

/-- Embedding of the FuzzResult NamedTuple: target, success, duration,
output, error.  Duration is modelled in whole seconds. -/
structure FuzzResult where
  target : FuzzTarget
  success : Bool
  duration : Nat
  output : String
  error : String
  deriving DecidableEq, Inhabited

/-- Abstract behaviour of the subprocess.run call made by
FuzzRunner._run_single_fuzz_test: the process either completes with a
return code and captured stdout/stderr, raises subprocess.TimeoutExpired,
or launching raises some other exception with a message. -/
inductive SubprocessResult where
  | completed (returncode : Int) (stdout : String) (stderr : String)
  | timedOut
  | launchError (msg : String)
  deriving DecidableEq, Inhabited

/-- Text of the synthesized timeout error message built in the
TimeoutExpired branch of _run_single_fuzz_test. -/
def timeoutMsg (fn : String) (elapsed : Nat) : String :=
  "Fuzz test " ++ fn ++ " timed out after " ++ toString elapsed ++ "s"

/-- Text of the error message built in the generic exception branch of
_run_single_fuzz_test. -/
def launchErrorMsg (fn : String) (msg : String) : String :=
  "Exception running fuzz test " ++ fn ++ ": " ++ msg

/-- Embedding of FuzzRunner._run_single_fuzz_test viewed as a map from the
abstract subprocess behaviour to the single FuzzResult it returns.  The
Python function returns exactly one FuzzResult on every control path
(normal completion, TimeoutExpired, generic exception); totality of this
function is the exactly-once outcome property. -/
def runSingleFuzzTest (t : FuzzTarget) (elapsed : Nat)
    (spr : SubprocessResult) : FuzzResult :=
  match spr with
  | SubprocessResult.completed rc out err =>
      { target := t, success := rc == 0, duration := elapsed,
        output := out, error := err }
  | SubprocessResult.timedOut =>
      { target := t, success := false, duration := elapsed,
        output := "", error := timeoutMsg t.function elapsed }
  | SubprocessResult.launchError m =>
      { target := t, success := false, duration := elapsed,
        output := "", error := launchErrorMsg t.function m }

/-- Embedding of the auto-detection branch of FuzzRunner._determine_jobs:
more than 8 cores give 4 jobs, more than 4 cores give 2 jobs, otherwise 1. -/
def autoJobs (cpuCores : Nat) : Nat :=
  if cpuCores > 8 then 4 else if cpuCores > 4 then 2 else 1

/-- Embedding of FuzzRunner._determine_jobs: a strictly positive configured
jobs value is used verbatim, otherwise the core-count based auto-detection
applies.  The configured value is an int in Python and may be negative. -/
def determineJobs (configJobs : Int) (cpuCores : Nat) : Nat :=
  if 0 < configJobs then configJobs.toNat else autoJobs cpuCores

/-- Embedding of the expression os.cpu_count() or 4 in FuzzRunner.__init__:
a missing core count, and the falsy value 0, are both replaced by 4. -/
def cpuCoresOf (cpuCount : Option Nat) : Nat :=
  match cpuCount with
  | none => 4
  | some n => if n == 0 then 4 else n

/-- Resource parameters of one sandbox invocation as computed by
_run_single_fuzz_test: the GOMAXPROCS override, the wall-clock timeout
handed to subprocess.run, and the command line. -/
structure SandboxInvocation where
  gomaxprocs : Nat
  timeoutSeconds : Nat
  cmd : List String
  deriving DecidableEq

/-- Embedding of the module path computation of _run_single_fuzz_test. -/
def modulePath (goModPresent : Bool) (dir : String) : String :=
  if goModPresent then (if dir == "." then "." else "./" ++ dir) else dir

/-- Embedding of the invocation parameters computed by
_run_single_fuzz_test before launching the subprocess. -/
def sandboxInvocation (cpuCores jobs fuzzTime : Nat) (goModPresent : Bool)
    (t : FuzzTarget) : SandboxInvocation :=
  { gomaxprocs := max 1 (cpuCores / jobs)
  , timeoutSeconds := fuzzTime + 60
  , cmd := ["go", "test", modulePath goModPresent t.directory,
            "-run=^" ++ t.function ++ "$",
            "-fuzz=^" ++ t.function ++ "$",
            "-fuzztime=" ++ toString fuzzTime ++ "s"] }

/-- Whitespace class of the regex patterns in discover_fuzz_targets,
modelled for the ASCII characters that occur in Go source text. -/
def isSpaceChar (c : Char) : Bool :=
  c == ' ' || c == '\t' || c == '\n' || c == '\r'

/-- Word-character class of the regex patterns, modelled for ASCII. -/
def isWordChar (c : Char) : Bool :=
  c.isAlphanum || c == '_'

/-- Matcher for the regex func backslash-s plus, capture of Fuzz followed
by word characters, backslash-s star, opening parenthesis, applied at the
head of the character list.  On success it returns the captured function
name and the characters after the match, exactly as re.findall resumes
scanning after the end of a match. -/
def matchFuzzAt : List Char → Option (String × List Char)
  | 'f' :: 'u' :: 'n' :: 'c' :: rest =>
      if (rest.takeWhile isSpaceChar).isEmpty then none
      else
        match rest.dropWhile isSpaceChar with
        | 'F' :: 'u' :: 'z' :: 'z' :: rest2 =>
            let w := rest2.takeWhile isWordChar
            match (rest2.dropWhile isWordChar).dropWhile isSpaceChar with
            | '(' :: rest5 =>
                some (String.mk ('F' :: 'u' :: 'z' :: 'z' :: w), rest5)
            | _ => none
        | _ => none
  | _ => none

/-- Left-to-right non-overlapping scan of re.findall over the file text.
The fuel argument bounds recursion and is initialised to the text length,
which always suffices because every step consumes at least one character. -/
def scanFuzz : Nat → List Char → List String
  | 0, _ => []
  | _, [] => []
  | Nat.succ n, c :: rest =>
      match matchFuzzAt (c :: rest) with
      | some (name, rest') => name :: scanFuzz n rest'
      | none => scanFuzz n rest

/-- Embedding of re.findall with the fuzz-function pattern over one file. -/
def findFuzzFuncs (content : String) : List String :=
  scanFuzz content.length content.data

/-- Characters strictly before the last slash of a path, or none when the
path contains no slash. -/
def beforeLastSlash : List Char → Option (List Char)
  | [] => none
  | c :: rest =>
      match beforeLastSlash rest with
      | some tail => some (c :: tail)
      | none => if c == '/' then some [] else none

/-- Embedding of os.path.dirname for posix paths: everything up to the
last slash, with trailing slashes stripped unless the head consists only
of slashes. -/
def dirname (p : String) : String :=
  match beforeLastSlash p.data with
  | none => ""
  | some before =>
      let headFull := before ++ ['/']
      if headFull.all (fun c => c == '/') then String.mk headFull
      else String.mk ((headFull.reverse.dropWhile (fun c => c == '/')).reverse)

/-- One file seen by the discovery scan: its path in the enumeration order
produced by glob.glob, and its content, or none when reading it raises and
the file is skipped with a warning. -/
structure FileEntry where
  path : String
  content : Option String
  deriving DecidableEq, Inhabited

/-- First pass of discover_fuzz_targets: a file is kept when it is
readable and re.search finds at least one fuzz function in it. -/
def readableHasFuzz (f : FileEntry) : Bool :=
  match f.content with
  | none => false
  | some c => !(findFuzzFuncs c).isEmpty

/-- The fuzz_files list built by the first loop of discover_fuzz_targets. -/
def fuzzFilesOf (tree : List FileEntry) : List FileEntry :=
  tree.filter readableHasFuzz

/-- Second pass of discover_fuzz_targets for one file: each function name
found by re.findall, in declaration order, becomes a FuzzTarget whose
directory is the dirname of the file, with the empty dirname replaced by
a dot. -/
def targetsOfFile (f : FileEntry) : List FuzzTarget :=
  match f.content with
  | none => []
  | some c =>
      (findFuzzFuncs c).map (fun fn =>
        { directory := if dirname f.path == "" then "." else dirname f.path,
          function := fn, filePath := f.path })

/-- Embedding of FuzzRunner.discover_fuzz_targets as a function of the
snapshot of the tree in glob enumeration order. -/
def discoverFuzzTargets (tree : List FileEntry) : List FuzzTarget :=
  (fuzzFilesOf tree).flatMap targetsOfFile

/-- One line written to the error-sink file by _log_error, kept in
structured form; render gives the exact text written. -/
inductive SinkLine where
  | sandboxFailed (fn file : String)
  | sandboxErrOutput (err : String)
  | sandboxTimeout (fn : String) (elapsed : Nat)
  | sandboxException (fn msg : String)
  | failedLine (fn file : String)
  | detailsLine (err : String)
  | sepLine
  | totalLine (n : Nat)
  deriving DecidableEq

/-- Exact text of each sink line as formatted by _log_error. -/
def SinkLine.render : SinkLine → String
  | SinkLine.sandboxFailed fn file =>
      "[ERROR] Failed fuzz test: " ++ fn ++ " in " ++ file
  | SinkLine.sandboxErrOutput e => "[ERROR] Error output: " ++ e
  | SinkLine.sandboxTimeout fn elapsed =>
      "[ERROR] " ++ timeoutMsg fn elapsed
  | SinkLine.sandboxException fn m =>
      "[ERROR] " ++ launchErrorMsg fn m
  | SinkLine.failedLine fn file => "[ERROR] FAILED: " ++ fn ++ " in " ++ file
  | SinkLine.detailsLine e => "[ERROR] Details: " ++ e
  | SinkLine.sepLine => "[ERROR] ---"
  | SinkLine.totalLine n =>
      "[ERROR] Total of " ++ toString n ++ " fuzz tests failed"

/-- Sink lines written from inside _run_single_fuzz_test itself for one
target, as a function of the subprocess behaviour: the failure branch of
a completed subprocess logs an identity line and, when stderr is nonempty,
the captured stderr; the timeout and exception branches log their message. -/
def sandboxSink (t : FuzzTarget) (elapsed : Nat)
    (spr : SubprocessResult) : List SinkLine :=
  match spr with
  | SubprocessResult.completed rc _ err =>
      if rc == 0 then []
      else [SinkLine.sandboxFailed t.function t.filePath] ++
           (if err == "" then [] else [SinkLine.sandboxErrOutput err])
  | SubprocessResult.timedOut => [SinkLine.sandboxTimeout t.function elapsed]
  | SubprocessResult.launchError m =>
      [SinkLine.sandboxException t.function m]

/-- Inputs of one run of FuzzRunner.run_fuzz_tests: the discovered target
list, the behaviour of each subprocess, per-target elapsed seconds,
whether processing each result raises in the result loop, the worker
count, the continue_on_failure flag, and whether an error file sink is
configured.  Per-target data is indexed by position in the target list. -/
structure RunParams where
  targets : List FuzzTarget
  sprs : List SubprocessResult
  elapsed : List Nat
  procExc : List Bool
  workers : Nat
  cof : Bool
  errorFile : Bool
  deriving DecidableEq

/-- Number of discovered targets. -/
def RunParams.n (p : RunParams) : Nat := p.targets.length

def RunParams.targetAt (p : RunParams) (i : Nat) : FuzzTarget :=
  p.targets.getD i default

def RunParams.sprAt (p : RunParams) (i : Nat) : SubprocessResult :=
  p.sprs.getD i SubprocessResult.timedOut

def RunParams.elapsedAt (p : RunParams) (i : Nat) : Nat :=
  p.elapsed.getD i 0

def RunParams.procExcAt (p : RunParams) (i : Nat) : Bool :=
  p.procExc.getD i false

/-- The single FuzzResult produced by the sandbox for target i. -/
def RunParams.resultAt (p : RunParams) (i : Nat) : FuzzResult :=
  runSingleFuzzTest (p.targetAt i) (p.elapsedAt i) (p.sprAt i)

def RunParams.successAt (p : RunParams) (i : Nat) : Bool :=
  (p.resultAt i).success

def RunParams.errorAt (p : RunParams) (i : Nat) : String :=
  (p.resultAt i).error

/-- Sink lines the sandbox of target i writes while executing, empty when
no error file is configured. -/
def RunParams.sandboxSinkAt (p : RunParams) (i : Nat) : List SinkLine :=
  if p.errorFile then
    sandboxSink (p.targetAt i) (p.elapsedAt i) (p.sprAt i)
  else []

/-- State of the scheduler of run_fuzz_tests: indices of targets not yet
picked up by a worker (in submission order), targets running in a worker,
finished targets whose result the loop has not yet consumed (in
completion order, the order as_completed yields them), targets whose
future was cancelled before starting, targets whose result the loop has
consumed, the two counters, whether the loop exited via break, and the
sink contents. -/
structure SchedState where
  pending : List Nat
  running : List Nat
  finishedQ : List Nat
  cancelled : List Nat
  processed : List Nat
  completed : Nat
  failed : Nat
  broken : Bool
  sink : List SinkLine
  deriving DecidableEq, Inhabited

/-- Initial state: all targets pending, nothing running or done. -/
def initState (p : RunParams) : SchedState :=
  { pending := List.range p.n, running := [], finishedQ := [], cancelled := [],
    processed := [], completed := 0, failed := 0, broken := false, sink := [] }

/-- Events of the run: a free worker picks up the next submitted future,
a running subprocess finishes, or the result loop consumes the next
completed future. -/
inductive Step where
  | start
  | finish (i : Nat)
  | process
  deriving DecidableEq

/-- Sink block written by the result loop for a failing result when an
error file is configured: identity line, details line when the captured
error text is nonempty, separator. -/
def blockLines (p : RunParams) (i : Nat) : List SinkLine :=
  if p.errorFile then
    [SinkLine.failedLine (p.targetAt i).function (p.targetAt i).filePath] ++
    (if p.errorAt i == "" then [] else [SinkLine.detailsLine (p.errorAt i)]) ++
    [SinkLine.sepLine]
  else []

/-- One transition of the scheduler, mirroring run_fuzz_tests.  Start
dispatches the head of the submission queue when a worker is free.
Finish moves a running target to the completion queue and appends the
sink lines its sandbox wrote.  Process consumes the head of the
completion queue as the loop body does: a processing exception increments
both counters and nothing else; a success increments completed; a failure
increments both, writes the sink block, and additionally, when
continue_on_failure is false, cancels every pending future and breaks,
after which the loop consumes nothing further while running targets may
still finish.  The cancellation is modelled atomically with the
processing of the failing result, as the specification describes it. -/
def applyStep (p : RunParams) (s : SchedState) : Step → Option SchedState
  | Step.start =>
      match s.pending with
      | [] => none
      | i :: rest =>
          if s.running.length < p.workers then
            some { s with pending := rest, running := s.running ++ [i] }
          else none
  | Step.finish i =>
      if i ∈ s.running then
        some { s with running := s.running.erase i,
                      finishedQ := s.finishedQ ++ [i],
                      sink := s.sink ++ p.sandboxSinkAt i }
      else none
  | Step.process =>
      if s.broken then none
      else
        match s.finishedQ with
        | [] => none
        | i :: rest =>
            if p.procExcAt i then
              some { s with finishedQ := rest, processed := s.processed ++ [i],
                            completed := s.completed + 1,
                            failed := s.failed + 1 }
            else if p.successAt i then
              some { s with finishedQ := rest, processed := s.processed ++ [i],
                            completed := s.completed + 1 }
            else if p.cof then
              some { s with finishedQ := rest, processed := s.processed ++ [i],
                            completed := s.completed + 1,
                            failed := s.failed + 1,
                            sink := s.sink ++ blockLines p i }
            else
              some { s with finishedQ := rest, processed := s.processed ++ [i],
                            completed := s.completed + 1,
                            failed := s.failed + 1,
                            sink := s.sink ++ blockLines p i,
                            cancelled := s.cancelled ++ s.pending,
                            pending := [], broken := true }

/-- Replay of a list of events from a given state. -/
def runFrom (p : RunParams) : SchedState → List Step → Option SchedState
  | s, [] => some s
  | s, st :: rest =>
      match applyStep p s st with
      | none => none
      | some s' => runFrom p s' rest

/-- Replay of a list of events from the initial state. -/
def runTrace (p : RunParams) (steps : List Step) : Option SchedState :=
  runFrom p (initState p) steps

/-- Final state of a concrete replay, defaulting on an invalid trace. -/
def runFinal (p : RunParams) (steps : List Step) : SchedState :=
  (runTrace p steps).getD default

/-- A state the run can actually be in. -/
def Reachable (p : RunParams) (s : SchedState) : Prop :=
  ∃ steps, runTrace p steps = some s

/-- A state in which the run has ended: nothing pending or running, and
either the loop broke or the completion queue is drained. -/
def Terminal (s : SchedState) : Prop :=
  s.pending = [] ∧ s.running = [] ∧ (s.broken = true ∨ s.finishedQ = [])

instance (s : SchedState) : Decidable (Terminal s) := by
  unfold Terminal
  infer_instance

/-- Number of separator lines in the sink. -/
def countSep (ls : List SinkLine) : Nat :=
  ls.countP (fun l => match l with | SinkLine.sepLine => true | _ => false)

/-- Number of loop-level FAILED identity lines in the sink. -/
def countFailedLines (ls : List SinkLine) : Nat :=
  ls.countP (fun l => match l with | SinkLine.failedLine _ _ => true | _ => false)

/-- Number of loop-level Details lines in the sink. -/
def countDetailLines (ls : List SinkLine) : Nat :=
  ls.countP (fun l => match l with | SinkLine.detailsLine _ => true | _ => false)

/-- Predicate for targets whose processing increments the failed counter:
the result loop raised, or the outcome is a failure. -/
def qCnt (p : RunParams) (i : Nat) : Bool :=
  p.procExcAt i || !(p.successAt i)

/-- Predicate for targets whose processing writes a sink block: a failing
outcome whose processing does not raise. -/
def qFail (p : RunParams) (i : Nat) : Bool :=
  !(p.successAt i) && !(p.procExcAt i)

/-- Predicate for targets whose sink block contains a details line. -/
def qDet (p : RunParams) (i : Nat) : Bool :=
  qFail p i && !(p.errorAt i == "")

/-- Contents of the sink file at the end of FuzzRunner.run: everything
written during run_fuzz_tests plus the final failure-total line that run
writes when failures were counted and an error file is configured. -/
def finalSinkLines (p : RunParams) (s : SchedState) : List SinkLine :=
  s.sink ++
    (if 0 < s.failed ∧ p.errorFile = true then [SinkLine.totalLine s.failed]
     else [])

/-- Inductive invariant of the scheduler: element counts over the five
index lists are conserved for every predicate, the counters are the
length and a count over the processed list, a broken loop has an empty
submission queue, continue_on_failure runs never break or cancel, and the
sink block counts track the processed failures. -/
def Inv (p : RunParams) (s : SchedState) : Prop :=
  (∀ q : Nat → Bool,
      s.pending.countP q + s.running.countP q + s.finishedQ.countP q +
        s.cancelled.countP q + s.processed.countP q =
        (List.range p.n).countP q) ∧
  s.completed = s.processed.length ∧
  s.failed = s.processed.countP (qCnt p) ∧
  (s.broken = true → s.pending = []) ∧
  (p.cof = true → s.broken = false ∧ s.cancelled = []) ∧
  (p.errorFile = true →
      countSep s.sink = s.processed.countP (qFail p) ∧
      countFailedLines s.sink = s.processed.countP (qFail p) ∧
      countDetailLines s.sink = s.processed.countP (qDet p))

/-- Target used in concrete runs. -/
def tgtA : FuzzTarget :=
  { directory := ".", function := "FuzzA", filePath := "a_test.go" }

/-- Second target used in concrete runs. -/
def tgtB : FuzzTarget :=
  { directory := ".", function := "FuzzB", filePath := "b_test.go" }

/-- A one-target run that succeeds, with continue_on_failure set. -/
def pOkRun : RunParams :=
  { targets := [tgtA], sprs := [SubprocessResult.completed 0 "ok" ""],
    elapsed := [1], procExc := [false], workers := 1, cof := true,
    errorFile := false }

/-- Complete trace of the one-target run. -/
def okTrace : List Step := [Step.start, Step.finish 0, Step.process]

/-- A two-target run with continue_on_failure false in which target 0
fails and target 1 succeeds. -/
def pAbort : RunParams :=
  { targets := [tgtA, tgtB],
    sprs := [SubprocessResult.completed 1 "" "boom",
             SubprocessResult.completed 0 "ok" ""],
    elapsed := [1, 1], procExc := [false, false], workers := 2,
    cof := false, errorFile := false }

/-- Trace in which both targets are dispatched, target 0 fails and is
processed (breaking the loop), and target 1 then finishes. -/
def abortTrace : List Step :=
  [Step.start, Step.start, Step.finish 0, Step.process, Step.finish 1]

/-- Prefix of the abort trace ending right after the loop breaks. -/
def abortPrefix : List Step :=
  [Step.start, Step.start, Step.finish 0, Step.process]

/-- A two-target run in which both targets fail with captured stderr,
with the sink configured and continue_on_failure true. -/
def pTwoFail : RunParams :=
  { targets := [tgtA, tgtB],
    sprs := [SubprocessResult.completed 1 "" "boom",
             SubprocessResult.completed 1 "" "crash"],
    elapsed := [1, 1], procExc := [false, false], workers := 2,
    cof := true, errorFile := true }

/-- Complete trace of the two-failure run. -/
def twoFailTrace : List Step :=
  [Step.start, Step.start, Step.finish 0, Step.process, Step.finish 1,
   Step.process]

/-- The same two-failure run but with continue_on_failure false. -/
def pTwoFailStop : RunParams :=
  { targets := [tgtA, tgtB],
    sprs := [SubprocessResult.completed 1 "" "boom",
             SubprocessResult.completed 1 "" "crash"],
    elapsed := [1, 1], procExc := [false, false], workers := 2,
    cof := false, errorFile := true }

/-- How FuzzRunner.run ends: run_fuzz_tests returned final counters, or a
KeyboardInterrupt was raised, or some other unrecoverable exception was. -/
inductive RunEnd where
  | normal (completed failed : Nat)
  | interrupted
  | internalError
  deriving DecidableEq

/-- Embedding of the exit-code computation of FuzzRunner.run. -/
def runExitCode (cof : Bool) : RunEnd → Nat
  | RunEnd.normal _ failed => if failed > 0 then (if cof then 0 else 1) else 0
  | RunEnd.interrupted => 130
  | RunEnd.internalError => 1

/-- Executable lexicographic order on character lists, used to express
the ordered-by-file-path property. -/
def strLexLe : List Char → List Char → Bool
  | [], _ => true
  | _ :: _, [] => false
  | a :: as, b :: bs => if a == b then strLexLe as bs else decide (a.val < b.val)

/-- Lexicographic byte order on paths. -/
def pathLe (p q : String) : Bool := strLexLe p.data q.data

/-- Snapshot of an unchanged tree whose glob enumeration order is not
sorted by path, as the operating system is free to produce. -/
def treeUnsorted : List FileEntry :=
  [{ path := "pkgb/b_test.go", content := some "func FuzzB(f *testing.F)" },
   { path := "pkga/a_test.go", content := some "func FuzzA(f *testing.F)" }]

/-- Snapshot of the same tree with a path-sorted enumeration order. -/
def treeSorted : List FileEntry :=
  [{ path := "pkga/a_test.go", content := some "func FuzzA(f *testing.F)" },
   { path := "pkgb/b_test.go", content := some "func FuzzB(f *testing.F)" }]

lemma countP_const_true {α : Type} (l : List α) :
    l.countP (fun _ => true) = l.length := by
  induction l with
  | nil => rfl
  | cons a t ih => simp [List.countP_cons, ih]

lemma counts_sandboxSink (t : FuzzTarget) (e : Nat) (spr : SubprocessResult) :
    countSep (sandboxSink t e spr) = 0 ∧
    countFailedLines (sandboxSink t e spr) = 0 ∧
    countDetailLines (sandboxSink t e spr) = 0 := by
  cases spr with
  | completed rc out err =>
      by_cases hrc : (rc == 0) = true
      · simp [sandboxSink, hrc, countSep, countFailedLines, countDetailLines]
      · by_cases herr : (err == "") = true <;>
          simp [sandboxSink, hrc, herr, countSep, countFailedLines,
                countDetailLines, List.countP_cons, List.countP_append]
  | timedOut =>
      simp [sandboxSink, countSep, countFailedLines, countDetailLines,
            List.countP_cons]
  | launchError m =>
      simp [sandboxSink, countSep, countFailedLines, countDetailLines,
            List.countP_cons]

lemma counts_sandboxSinkAt (p : RunParams) (i : Nat) :
    countSep (p.sandboxSinkAt i) = 0 ∧
    countFailedLines (p.sandboxSinkAt i) = 0 ∧
    countDetailLines (p.sandboxSinkAt i) = 0 := by
  unfold RunParams.sandboxSinkAt
  split
  · exact counts_sandboxSink _ _ _
  · simp [countSep, countFailedLines, countDetailLines]

lemma counts_blockLines (p : RunParams) (i : Nat) (hef : p.errorFile = true) :
    countSep (blockLines p i) = 1 ∧
    countFailedLines (blockLines p i) = 1 ∧
    countDetailLines (blockLines p i) =
      (if (p.errorAt i == "") = true then 0 else 1) := by
  by_cases herr : (p.errorAt i == "") = true <;>
    simp [blockLines, hef, herr, countSep, countFailedLines,
          countDetailLines, List.countP_cons, List.countP_append]

lemma countSep_append (a b : List SinkLine) :
    countSep (a ++ b) = countSep a + countSep b := by
  simp [countSep, List.countP_append]

lemma countFailedLines_append (a b : List SinkLine) :
    countFailedLines (a ++ b) = countFailedLines a + countFailedLines b := by
  simp [countFailedLines, List.countP_append]

lemma countDetailLines_append (a b : List SinkLine) :
    countDetailLines (a ++ b) = countDetailLines a + countDetailLines b := by
  simp [countDetailLines, List.countP_append]

lemma inv_init (p : RunParams) : Inv p (initState p) := by
  refine ⟨?_, rfl, rfl, ?_, ?_, ?_⟩
  · intro q; simp [initState]
  · intro h; simp [initState] at h
  · intro _; exact ⟨rfl, rfl⟩
  · intro _; exact ⟨rfl, rfl, rfl⟩

lemma inv_applyStep {p : RunParams} {s s' : SchedState} {st : Step}
    (hinv : Inv p s) (h : applyStep p s st = some s') : Inv p s' := by
  obtain ⟨hq, hcomp, hfail, hbrk, hcof, hsink⟩ := hinv
  cases st with
  | start =>
      simp only [applyStep] at h
      split at h
      · exact absurd h (by simp)
      · rename_i i rest hp
        split at h
        · injection h with h'
          subst h'
          refine ⟨?_, hcomp, hfail, ?_, ?_, hsink⟩
          · intro q
            have hc := hq q
            rw [hp] at hc
            by_cases hqi : q i = true <;>
              simp [List.countP_cons, List.countP_append, hqi] at hc ⊢ <;>
              omega
          · intro hb
            have := hbrk hb
            rw [hp] at this
            exact absurd this (by simp)
          · intro hc; exact hcof hc
        · exact absurd h (by simp)
  | finish i =>
      simp only [applyStep] at h
      split at h
      · rename_i hmem
        injection h with h'
        subst h'
        refine ⟨?_, hcomp, hfail, hbrk, hcof, ?_⟩
        · intro q
          have hc := hq q
          have hperm : s.running.Perm (i :: s.running.erase i) :=
            List.perm_cons_erase hmem
          have hre := hperm.countP_eq q
          rw [hre] at hc
          by_cases hqi : q i = true <;>
            simp [List.countP_cons, List.countP_append, hqi] at hc ⊢ <;>
            omega
        · intro hef
          obtain ⟨h1, h2, h3⟩ := hsink hef
          obtain ⟨z1, z2, z3⟩ := counts_sandboxSinkAt p i
          simp [countSep_append, countFailedLines_append,
                countDetailLines_append, h1, h2, h3, z1, z2, z3]
      · exact absurd h (by simp)
  | process =>
      simp only [applyStep] at h
      split at h
      · exact absurd h (by simp)
      · rename_i hnb
        have hbf : s.broken = false := by
          cases hb : s.broken
          · rfl
          · exact absurd hb hnb
        split at h
        · exact absurd h (by simp)
        · rename_i i rest hfq
          by_cases hexc : p.procExcAt i = true
          · rw [if_pos hexc] at h
            injection h with h'
            subst h'
            refine ⟨?_, ?_, ?_, ?_, ?_, ?_⟩
            · intro q
              have hc := hq q
              rw [hfq] at hc
              by_cases hqi : q i = true <;>
                simp [List.countP_cons, List.countP_append, hqi] at hc ⊢ <;>
                omega
            · simp [hcomp]
            · simp [List.countP_append, List.countP_cons, qCnt, hexc, hfail]
            · intro hb; simp only at hb; rw [hbf] at hb
              exact absurd hb (by simp)
            · intro hc; exact hcof hc
            · intro hef
              obtain ⟨h1, h2, h3⟩ := hsink hef
              refine ⟨?_, ?_, ?_⟩ <;>
                simp [List.countP_append, List.countP_cons, qFail, qDet,
                      hexc, h1, h2, h3]
          · rw [if_neg hexc] at h
            have hexcf : p.procExcAt i = false := by
              cases hx : p.procExcAt i
              · rfl
              · exact absurd hx hexc
            by_cases hsucc : p.successAt i = true
            · rw [if_pos hsucc] at h
              injection h with h'
              subst h'
              refine ⟨?_, ?_, ?_, ?_, ?_, ?_⟩
              · intro q
                have hc := hq q
                rw [hfq] at hc
                by_cases hqi : q i = true <;>
                  simp [List.countP_cons, List.countP_append, hqi] at hc ⊢ <;>
                  omega
              · simp [hcomp]
              · simp [List.countP_append, List.countP_cons, qCnt, hexcf,
                      hsucc, hfail]
              · intro hb; simp only at hb; rw [hbf] at hb
                exact absurd hb (by simp)
              · intro hc; exact hcof hc
              · intro hef
                obtain ⟨h1, h2, h3⟩ := hsink hef
                refine ⟨?_, ?_, ?_⟩ <;>
                  simp [List.countP_append, List.countP_cons, qFail, qDet,
                        hsucc, h1, h2, h3]
            · have hsuccf : p.successAt i = false := by
                cases hx : p.successAt i
                · rfl
                · exact absurd hx hsucc
              rw [if_neg hsucc] at h
              have hqf : qFail p i = true := by simp [qFail, hsuccf, hexcf]
              have hqc : qCnt p i = true := by simp [qCnt, hsuccf, hexcf]
              by_cases hc : p.cof = true
              · rw [if_pos hc] at h
                injection h with h'
                subst h'
                refine ⟨?_, ?_, ?_, ?_, ?_, ?_⟩
                · intro q
                  have hcq := hq q
                  rw [hfq] at hcq
                  by_cases hqi : q i = true <;>
                    simp [List.countP_cons, List.countP_append, hqi]
                      at hcq ⊢ <;> omega
                · simp [hcomp]
                · simp [List.countP_append, List.countP_cons, hqc, hfail]
                · intro hb; simp only at hb; rw [hbf] at hb
                  exact absurd hb (by simp)
                · intro hc'; exact hcof hc'
                · intro hef
                  obtain ⟨h1, h2, h3⟩ := hsink hef
                  obtain ⟨b1, b2, b3⟩ := counts_blockLines p i hef
                  refine ⟨?_, ?_, ?_⟩
                  · simp [countSep_append, h1, b1, List.countP_append,
                          List.countP_cons, hqf]
                  · simp [countFailedLines_append, h2, b2,
                          List.countP_append, List.countP_cons, hqf]
                  · simp only [countDetailLines_append, h3, b3,
                               List.countP_append, List.countP_cons,
                               List.countP_nil, qDet, hqf]
                    by_cases he : (p.errorAt i == "") = true <;> simp [he]
              · rw [if_neg hc] at h
                injection h with h'
                subst h'
                refine ⟨?_, ?_, ?_, ?_, ?_, ?_⟩
                · intro q
                  have hcq := hq q
                  rw [hfq] at hcq
                  by_cases hqi : q i = true <;>
                    simp [List.countP_cons, List.countP_append, hqi]
                      at hcq ⊢ <;> omega
                · simp [hcomp]
                · simp [List.countP_append, List.countP_cons, hqc, hfail]
                · intro _; rfl
                · intro hc'; exact absurd hc' hc
                · intro hef
                  obtain ⟨h1, h2, h3⟩ := hsink hef
                  obtain ⟨b1, b2, b3⟩ := counts_blockLines p i hef
                  refine ⟨?_, ?_, ?_⟩
                  · simp [countSep_append, h1, b1, List.countP_append,
                          List.countP_cons, hqf]
                  · simp [countFailedLines_append, h2, b2,
                          List.countP_append, List.countP_cons, hqf]
                  · simp only [countDetailLines_append, h3, b3,
                               List.countP_append, List.countP_cons,
                               List.countP_nil, qDet, hqf]
                    by_cases he : (p.errorAt i == "") = true <;> simp [he]

lemma inv_runFrom {p : RunParams} :
    ∀ (steps : List Step) (s s' : SchedState),
      Inv p s → runFrom p s steps = some s' → Inv p s' := by
  intro steps
  induction steps with
  | nil =>
      intro s s' hinv h
      simp [runFrom] at h
      rw [← h]; exact hinv
  | cons st rest ih =>
      intro s s' hinv h
      simp only [runFrom] at h
      cases happ : applyStep p s st with
      | none => rw [happ] at h; exact absurd h (by simp)
      | some s1 =>
          rw [happ] at h
          exact ih s1 s' (inv_applyStep hinv happ) h

lemma inv_reachable {p : RunParams} {s : SchedState}
    (h : Reachable p s) : Inv p s := by
  obtain ⟨steps, hsteps⟩ := h
  exact inv_runFrom steps (initState p) s (inv_init p) hsteps

lemma counters_mono {p : RunParams} {s s' : SchedState} {st : Step}
    (h : applyStep p s st = some s') :
    s.completed ≤ s'.completed ∧ s.failed ≤ s'.failed := by
  cases st with
  | start =>
      simp only [applyStep] at h
      split at h
      · exact absurd h (by simp)
      · split at h
        · injection h with h'; subst h'; exact ⟨le_refl _, le_refl _⟩
        · exact absurd h (by simp)
  | finish i =>
      simp only [applyStep] at h
      split at h
      · injection h with h'; subst h'; exact ⟨le_refl _, le_refl _⟩
      · exact absurd h (by simp)
  | process =>
      simp only [applyStep] at h
      split at h
      · exact absurd h (by simp)
      · split at h
        · exact absurd h (by simp)
        · split at h
          · injection h with h'; subst h'; constructor <;> simp
          · split at h
            · injection h with h'; subst h'; constructor <;> simp
            · split at h <;>
                (injection h with h'; subst h'; constructor <;> simp)

lemma getD_false_of_all {l : List Bool} (h : l.all (fun b => !b) = true) :
    ∀ i, l.getD i false = false := by
  induction l with
  | nil => intro i; rfl
  | cons b t ih =>
      intro i
      rw [List.all_cons] at h
      have hb : b = false := by
        cases hx : b
        · rfl
        · rw [hx] at h; simp at h
      have ht : t.all (fun x => !x) = true := by
        cases hx : t.all (fun x => !x)
        · rw [hx] at h; simp at h
        · rfl
      cases i with
      | zero => simpa using hb
      | succ k => simpa using ih ht k

lemma countP_congr_list {α : Type} {l : List α} {f g : α → Bool}
    (h : ∀ a ∈ l, f a = g a) : l.countP f = l.countP g := by
  induction l with
  | nil => rfl
  | cons a t ih =>
      simp [List.countP_cons, h a (List.mem_cons_self a t),
            ih (fun x hx => h x (List.mem_cons_of_mem a hx))]

lemma counts_totalBlock (p : RunParams) (s : SchedState) :
    countSep (finalSinkLines p s) = countSep s.sink ∧
    countFailedLines (finalSinkLines p s) = countFailedLines s.sink ∧
    countDetailLines (finalSinkLines p s) = countDetailLines s.sink := by
  unfold finalSinkLines
  refine ⟨?_, ?_, ?_⟩ <;>
    simp [countSep_append, countFailedLines_append,
          countDetailLines_append] <;>
    split <;>
    simp [countSep, countFailedLines, countDetailLines, List.countP_cons]

/-- Claim C2: in every run with continue_on_failure true, when the run
ends (nothing pending, nothing running, completion queue drained) the
completed counter equals the number of discovered targets exactly,
including targets whose result processing raised an exception, which the
loop still counts in its except branch. -/
theorem claim2_all_targets_counted (p : RunParams) (hcof : p.cof = true)
    (s : SchedState) (hre : Reachable p s) (hterm : Terminal s) :
    s.completed = p.targets.length := by
  obtain ⟨hq, hcomp, _, _, hcofi, _⟩ := inv_reachable hre
  obtain ⟨hpend, hrun, hbf⟩ := hterm
  obtain ⟨hbr, hcanc⟩ := hcofi hcof
  have hfin : s.finishedQ = [] := by
    cases hbf with
    | inl hb => rw [hb] at hbr; exact absurd hbr (by simp)
    | inr hx => exact hx
  have hlen := hq (fun _ => true)
  rw [hpend, hrun, hfin, hcanc] at hlen
  simp only [countP_const_true, List.length_nil, List.length_range] at hlen
  rw [hcomp]
  simpa using hlen

/-- Witness for claim C2 on a concrete completed run. -/
theorem claim2_all_targets_counted_witness :
    (runFinal pOkRun okTrace).completed = 1 :=
  claim2_all_targets_counted pOkRun rfl (runFinal pOkRun okTrace)
    ⟨okTrace, by decide⟩ (by decide)

/-- Claim C5: in every reachable scheduler state the counters satisfy
completed at most the number of discovered targets and failed at most
completed, and every scheduler step, including the exception path of
result processing, leaves both counters non-decreasing. -/
theorem claim5_counter_invariants (p : RunParams) (s : SchedState)
    (hre : Reachable p s) :
    s.completed ≤ p.targets.length ∧ s.failed ≤ s.completed ∧
    (∀ st s', applyStep p s st = some s' →
        s.completed ≤ s'.completed ∧ s.failed ≤ s'.failed) := by
  obtain ⟨hq, hcomp, hfail, _, _, _⟩ := inv_reachable hre
  refine ⟨?_, ?_, ?_⟩
  · have hlen := hq (fun _ => true)
    simp only [countP_const_true, List.length_range] at hlen
    have hn : p.n = p.targets.length := rfl
    rw [hcomp]
    omega
  · rw [hcomp, hfail]
    exact List.countP_le_length _
  · intro st s' h
    exact counters_mono h

/-- Witness for claim C5 on a concrete reachable state. -/
theorem claim5_counter_invariants_witness :
    (runFinal pOkRun okTrace).completed ≤ pOkRun.targets.length ∧
    (runFinal pOkRun okTrace).failed ≤ (runFinal pOkRun okTrace).completed :=
  ⟨(claim5_counter_invariants pOkRun (runFinal pOkRun okTrace)
      ⟨okTrace, by decide⟩).1,
   (claim5_counter_invariants pOkRun (runFinal pOkRun okTrace)
      ⟨okTrace, by decide⟩).2.1⟩

/-- Claim C1, amended: in a run with continue_on_failure false, once the
loop has broken on the first failing processed outcome, no pending target
can ever be dispatched (the submission queue was emptied by the
cancellation, so the start transition is disabled forever), every target
still running may finish, and every transition still possible leaves the
completed and failed counters unchanged: outcomes of targets that were
in flight at the abort are not recorded in the counters, because the
result loop has exited.  The original claim asserted that those in-flight
outcomes are still recorded; the counterexample refutes that. -/
theorem claim1_abort_no_dispatch (p : RunParams) (hcof : p.cof = false)
    (s : SchedState) (hre : Reachable p s) (hbrk : s.broken = true) :
    applyStep p s Step.start = none ∧
    (∀ i, i ∈ s.running → (applyStep p s (Step.finish i)).isSome = true) ∧
    (∀ st s', applyStep p s st = some s' →
        s'.completed = s.completed ∧ s'.failed = s.failed ∧
        s'.broken = true) := by
  obtain ⟨_, _, _, hbp, _, _⟩ := inv_reachable hre
  have hpend : s.pending = [] := hbp hbrk
  refine ⟨?_, ?_, ?_⟩
  · simp [applyStep, hpend]
  · intro i hi
    simp [applyStep, hi]
  · intro st s' h
    cases st with
    | start =>
        have hn : applyStep p s Step.start = none := by
          simp [applyStep, hpend]
        rw [hn] at h
        exact absurd h (by simp)
    | finish i =>
        simp only [applyStep] at h
        split at h
        · injection h with h'
          subst h'
          exact ⟨rfl, rfl, hbrk⟩
        · exact absurd h (by simp)
    | process =>
        simp only [applyStep, hbrk] at h
        exact absurd h (by simp)

/-- Counterexample to claim C1 as stated: in this terminated run both
targets were dispatched and ran to completion and none was cancelled, yet
the completed counter is 1, not 2: the outcome of the target that was in
flight when the loop broke is never recorded in the counters, contrary to
the claim that in-flight outcomes are still recorded. -/
theorem claim1_counterexample :
    (runTrace pAbort abortTrace).isSome = true ∧
    Terminal (runFinal pAbort abortTrace) ∧
    (runFinal pAbort abortTrace).cancelled = [] ∧
    (runFinal pAbort abortTrace).completed = 1 ∧
    (runFinal pAbort abortTrace).failed = 1 ∧
    pAbort.targets.length = 2 := by decide

/-- Witness for amended claim C1 at the concrete broken state. -/
theorem claim1_abort_no_dispatch_witness :
    applyStep pAbort (runFinal pAbort abortPrefix) Step.start = none :=
  (claim1_abort_no_dispatch pAbort rfl (runFinal pAbort abortPrefix)
    ⟨abortPrefix, by decide⟩ (by decide)).1

/-- Claim C9, amended: in a run with an error-file sink configured and
continue_on_failure true, in which exactly 2 targets produce failing
outcomes, result processing never raises, and every failing outcome
carries a nonempty error text, the finished sink contains exactly 2
loop-level failure blocks: exactly 2 FAILED identity lines, exactly 2
Details lines carrying the captured error text, and exactly 2 separator
lines.  The sink additionally contains the sandbox-level error lines of
each failing target and a final failure-total line, which are not part of
the blocks.  With continue_on_failure false the loop breaks at the first
failure and writes only one block, refuting the unconditional claim (see
the counterexample). -/
theorem claim9_sink_two_blocks (p : RunParams) (hcof : p.cof = true)
    (hef : p.errorFile = true) (s : SchedState) (hre : Reachable p s)
    (hterm : Terminal s)
    (hexc : p.procExc.all (fun b => !b) = true)
    (hfail : (List.range p.n).countP (fun i => !(p.successAt i)) = 2)
    (herr : (List.range p.n).all
        (fun i => p.successAt i || !(p.errorAt i == "")) = true) :
    countSep (finalSinkLines p s) = 2 ∧
    countFailedLines (finalSinkLines p s) = 2 ∧
    countDetailLines (finalSinkLines p s) = 2 := by
  obtain ⟨hq, _, _, _, hcofi, hsink⟩ := inv_reachable hre
  obtain ⟨hpend, hrun, hbf⟩ := hterm
  obtain ⟨hbr, hcanc⟩ := hcofi hcof
  have hfin : s.finishedQ = [] := by
    cases hbf with
    | inl hb => rw [hb] at hbr; exact absurd hbr (by simp)
    | inr hx => exact hx
  have hexcAt : ∀ i, p.procExcAt i = false := fun i => getD_false_of_all hexc i
  have hqf2 : (List.range p.n).countP (qFail p) = 2 := by
    rw [countP_congr_list (g := fun i => !(p.successAt i)) ?_]
    · exact hfail
    · intro a _
      simp [qFail, hexcAt a]
  have hqd2 : (List.range p.n).countP (qDet p) = 2 := by
    rw [countP_congr_list (g := fun i => !(p.successAt i)) ?_]
    · exact hfail
    · intro a ha
      have hh := (List.all_eq_true.mp herr) a ha
      cases hs : p.successAt a
      · rw [hs] at hh
        simp only [Bool.false_or] at hh
        simp [qDet, qFail, hexcAt a, hs, hh]
      · simp [qDet, qFail, hs]
  have hpf : s.processed.countP (qFail p) = 2 := by
    have hcq := hq (qFail p)
    rw [hpend, hrun, hfin, hcanc] at hcq
    simpa [hqf2] using hcq
  have hpd : s.processed.countP (qDet p) = 2 := by
    have hcq := hq (qDet p)
    rw [hpend, hrun, hfin, hcanc] at hcq
    simpa [hqd2] using hcq
  obtain ⟨h1, h2, h3⟩ := hsink hef
  obtain ⟨t1, t2, t3⟩ := counts_totalBlock p s
  exact ⟨by rw [t1, h1, hpf], by rw [t2, h2, hpf], by rw [t3, h3, hpd]⟩

/-- Witness for amended claim C9 on a concrete two-failure run. -/
theorem claim9_sink_two_blocks_witness :
    countSep (finalSinkLines pTwoFail (runFinal pTwoFail twoFailTrace)) = 2 ∧
    countFailedLines
      (finalSinkLines pTwoFail (runFinal pTwoFail twoFailTrace)) = 2 :=
  ⟨(claim9_sink_two_blocks pTwoFail rfl rfl
      (runFinal pTwoFail twoFailTrace) ⟨twoFailTrace, by decide⟩ (by decide)
      (by decide) (by decide) (by decide)).1,
   (claim9_sink_two_blocks pTwoFail rfl rfl
      (runFinal pTwoFail twoFailTrace) ⟨twoFailTrace, by decide⟩ (by decide)
      (by decide) (by decide) (by decide)).2.1⟩

/-- Counterexample to claim C9 as stated: the claim promises exactly 2
failure blocks whenever 2 targets fail in a run, but with
continue_on_failure false the loop breaks at the first processed failure,
so even though both subprocesses failed, the finished sink contains
exactly one separator, hence one block, not two. -/
theorem claim9_counterexample :
    (runTrace pTwoFailStop abortTrace).isSome = true ∧
    Terminal (runFinal pTwoFailStop abortTrace) ∧
    (List.range pTwoFailStop.n).countP
        (fun i => !(pTwoFailStop.successAt i)) = 2 ∧
    countSep (finalSinkLines pTwoFailStop
        (runFinal pTwoFailStop abortTrace)) = 1 := by decide

/-- Claim C3: the exit status of FuzzRunner.run is 0 when no failure was
counted or when failures occurred with continue_on_failure set, 1 when at
least one failure occurred with continue_on_failure unset or an
unrecoverable internal error occurred, and 130 on external interruption. -/
theorem claim3_exit_codes (cof : Bool) (c f : Nat) :
    runExitCode cof (RunEnd.normal c 0) = 0 ∧
    (0 < f → runExitCode true (RunEnd.normal c f) = 0) ∧
    (0 < f → runExitCode false (RunEnd.normal c f) = 1) ∧
    runExitCode cof RunEnd.interrupted = 130 ∧
    runExitCode cof RunEnd.internalError = 1 := by
  refine ⟨?_, ?_, ?_, rfl, rfl⟩ <;> simp [runExitCode] <;> omega

/-- Witness for claim C3 at concrete counter values. -/
theorem claim3_exit_codes_witness :
    runExitCode true (RunEnd.normal 3 1) = 0 ∧
    runExitCode false (RunEnd.normal 3 1) = 1 :=
  ⟨(claim3_exit_codes true 3 1).2.1 (by decide),
   (claim3_exit_codes false 3 1).2.2.1 (by decide)⟩

/-- Claim C4: _run_single_fuzz_test returns exactly one FuzzResult for each
subprocess behaviour (it is a total function of that behaviour), and each
failure mode maps to success equals false: a non-zero exit captures stderr
in the error field, a timeout synthesizes a descriptive message with empty
output, and a launch exception captures the exception text. -/
theorem claim4_failure_modes (t : FuzzTarget) (elapsed : Nat)
    (spr : SubprocessResult) :
    (∀ rc out err, spr = SubprocessResult.completed rc out err →
        ((runSingleFuzzTest t elapsed spr).success = true ↔ rc = 0) ∧
        (runSingleFuzzTest t elapsed spr).output = out ∧
        (runSingleFuzzTest t elapsed spr).error = err ∧
        (rc ≠ 0 → (runSingleFuzzTest t elapsed spr).success = false)) ∧
    (spr = SubprocessResult.timedOut →
        (runSingleFuzzTest t elapsed spr).success = false ∧
        (runSingleFuzzTest t elapsed spr).output = "" ∧
        (runSingleFuzzTest t elapsed spr).error = timeoutMsg t.function elapsed) ∧
    (∀ m, spr = SubprocessResult.launchError m →
        (runSingleFuzzTest t elapsed spr).success = false ∧
        (runSingleFuzzTest t elapsed spr).output = "" ∧
        (runSingleFuzzTest t elapsed spr).error = launchErrorMsg t.function m) := by
  refine ⟨?_, ?_, ?_⟩
  · rintro rc out err rfl
    refine ⟨?_, rfl, rfl, ?_⟩
    · simp [runSingleFuzzTest]
    · intro h
      simp [runSingleFuzzTest, h]
  · rintro rfl
    exact ⟨rfl, rfl, rfl⟩
  · rintro m rfl
    exact ⟨rfl, rfl, rfl⟩

/-- Witness for claim C4 on a concrete target and a non-zero exit. -/
theorem claim4_failure_modes_witness :
    (runSingleFuzzTest ⟨".", "FuzzX", "x_test.go"⟩ 3
        (SubprocessResult.completed 1 "out" "boom")).success = false ∧
    (runSingleFuzzTest ⟨".", "FuzzX", "x_test.go"⟩ 3
        (SubprocessResult.completed 1 "out" "boom")).error = "boom" :=
  ⟨((claim4_failure_modes ⟨".", "FuzzX", "x_test.go"⟩ 3
      (SubprocessResult.completed 1 "out" "boom")).1 1 "out" "boom" rfl).2.2.2
      (by decide),
   ((claim4_failure_modes ⟨".", "FuzzX", "x_test.go"⟩ 3
      (SubprocessResult.completed 1 "out" "boom")).1 1 "out" "boom" rfl).2.2.1⟩

/-- Counterexample to claim C7 as stated: the claim says the auto-detected
worker count is 2 for up to 4 cores, but on a 4 core machine the code
takes the final else branch of _determine_jobs and uses 1 worker. -/
theorem claim7_counterexample :
    determineJobs 0 4 = 1 ∧ (1 : Nat) ≠ 2 := by decide

/-- Claim C7, amended: when no worker count is configured (jobs value not
positive), the worker count is 1 for up to 4 detected cores, 2 for 5 to 8
cores, and 4 above 8 cores. -/
theorem claim7_auto_jobs_tiers (cores : Nat) (cj : Int) (hcj : cj ≤ 0) :
    (cores ≤ 4 → determineJobs cj cores = 1) ∧
    (4 < cores → cores ≤ 8 → determineJobs cj cores = 2) ∧
    (8 < cores → determineJobs cj cores = 4) := by
  have hnot : ¬ (0 < cj) := by omega
  refine ⟨?_, ?_, ?_⟩ <;> intro h
  · have h8 : ¬ (cores > 8) := by omega
    have h4 : ¬ (cores > 4) := by omega
    simp [determineJobs, autoJobs, hnot, h8, h4]
  · intro h8
    have h8' : ¬ (cores > 8) := by omega
    simp [determineJobs, autoJobs, hnot, h8', h]
  · simp [determineJobs, autoJobs, hnot, h]

/-- Witness for amended claim C7 in each tier. -/
theorem claim7_auto_jobs_tiers_witness :
    determineJobs 0 4 = 1 ∧ determineJobs 0 6 = 2 ∧ determineJobs 0 16 = 4 :=
  ⟨(claim7_auto_jobs_tiers 4 0 (by decide)).1 (by decide),
   (claim7_auto_jobs_tiers 6 0 (by decide)).2.1 (by decide) (by decide),
   (claim7_auto_jobs_tiers 16 0 (by decide)).2.2 (by decide)⟩

/-- Claim C8: for every target execution the GOMAXPROCS override passed to
the subprocess equals max 1 (total cores divided by worker count, integer
division), and the wall-clock timeout handed to subprocess.run is the
configured fuzz duration plus a fixed 60 second margin, hence strictly
greater than the fuzz duration. -/
theorem claim8_resource_budget (cores jobs ft : Nat) (gm : Bool)
    (t : FuzzTarget) (hj : 0 < jobs) :
    (sandboxInvocation cores jobs ft gm t).gomaxprocs = max 1 (cores / jobs) ∧
    (sandboxInvocation cores jobs ft gm t).timeoutSeconds = ft + 60 ∧
    ft < (sandboxInvocation cores jobs ft gm t).timeoutSeconds := by
  refine ⟨rfl, rfl, ?_⟩
  show ft < ft + 60
  omega

/-- Witness for claim C8 at a concrete configuration. -/
theorem claim8_resource_budget_witness :
    (sandboxInvocation 8 2 10 true ⟨".", "FuzzX", "x_test.go"⟩).gomaxprocs
      = max 1 (8 / 2) ∧
    10 < (sandboxInvocation 8 2 10 true
      ⟨".", "FuzzX", "x_test.go"⟩).timeoutSeconds :=
  ⟨(claim8_resource_budget 8 2 10 true ⟨".", "FuzzX", "x_test.go"⟩
      (by decide)).1,
   (claim8_resource_budget 8 2 10 true ⟨".", "FuzzX", "x_test.go"⟩
      (by decide)).2.2⟩

lemma discoverFuzzTargets_cons (f : FileEntry) (rest : List FileEntry) :
    discoverFuzzTargets (f :: rest) =
      (if readableHasFuzz f then targetsOfFile f else []) ++
        discoverFuzzTargets rest := by
  simp only [discoverFuzzTargets, fuzzFilesOf, List.filter_cons]
  split
  · simp
  · simp

lemma targetsOfFile_path {f : FileEntry} {t : FuzzTarget}
    (h : t ∈ targetsOfFile f) : t.filePath = f.path := by
  unfold targetsOfFile at h
  cases hc : f.content with
  | none => rw [hc] at h; simp at h
  | some c =>
      rw [hc] at h
      simp only [List.mem_map] at h
      obtain ⟨fn, _, rfl⟩ := h
      rfl

lemma discover_paths_mem {tree : List FileEntry} {t : FuzzTarget}
    (h : t ∈ discoverFuzzTargets tree) :
    t.filePath ∈ tree.map FileEntry.path := by
  induction tree with
  | nil => simp [discoverFuzzTargets, fuzzFilesOf] at h
  | cons f rest ih =>
      rw [discoverFuzzTargets_cons] at h
      rcases List.mem_append.mp h with h1 | h2
      · by_cases hr : readableHasFuzz f
        · rw [if_pos hr] at h1
          simp only [List.map_cons, List.mem_cons]
          exact Or.inl (targetsOfFile_path h1)
        · rw [if_neg hr] at h1
          simp at h1
      · simp only [List.map_cons, List.mem_cons]
        exact Or.inr (ih h2)

lemma strLexLe_refl (l : List Char) : strLexLe l l = true := by
  induction l with
  | nil => rfl
  | cons a as ih => simp [strLexLe, ih]

lemma pathLe_refl (p : String) : pathLe p p = true := strLexLe_refl p.data

lemma pairwise_le_of_all_eq {l : List String} {v : String}
    (h : ∀ x ∈ l, x = v) : l.Pairwise (fun a b => pathLe a b = true) := by
  induction l with
  | nil => exact List.Pairwise.nil
  | cons a t ih =>
      refine List.Pairwise.cons ?_ (ih fun x hx => h x (List.mem_cons_of_mem a hx))
      intro b hb
      rw [h a (List.mem_cons_self a t), h b (List.mem_cons_of_mem a hb)]
      exact pathLe_refl v

/-- Claim C6, amended: discovery is a deterministic function of the
snapshot of the tree, so a second run over an unchanged tree returns an
identical ordered list; targets appear grouped by file in the enumeration
order produced by glob.glob, with in-file declaration order inside each
file.  The produced list is ordered by file path whenever the underlying
enumeration is, but glob.glob itself gives no sorted-order guarantee, so
ordering by path is not unconditional (see the counterexample). -/
theorem claim6_discovery_deterministic (tree : List FileEntry) :
    discoverFuzzTargets tree = discoverFuzzTargets tree ∧
    ((tree.map FileEntry.path).Pairwise (fun a b => pathLe a b = true) →
      ((discoverFuzzTargets tree).map FuzzTarget.filePath).Pairwise
        (fun a b => pathLe a b = true)) := by
  refine ⟨rfl, ?_⟩
  induction tree with
  | nil => intro _; simp [discoverFuzzTargets, fuzzFilesOf]
  | cons f rest ih =>
      intro hs
      rw [List.map_cons, List.pairwise_cons] at hs
      rw [discoverFuzzTargets_cons, List.map_append, List.pairwise_append]
      refine ⟨?_, ih hs.2, ?_⟩
      · refine pairwise_le_of_all_eq (v := f.path) ?_
        intro x hx
        simp only [List.mem_map] at hx
        obtain ⟨t, ht, rfl⟩ := hx
        by_cases hr : readableHasFuzz f
        · rw [if_pos hr] at ht; exact targetsOfFile_path ht
        · rw [if_neg hr] at ht; simp at ht
      · intro a ha b hb
        simp only [List.mem_map] at ha hb
        obtain ⟨ta, hta, rfl⟩ := ha
        obtain ⟨tb, htb, rfl⟩ := hb
        have hap : ta.filePath = f.path := by
          by_cases hr : readableHasFuzz f
          · rw [if_pos hr] at hta; exact targetsOfFile_path hta
          · rw [if_neg hr] at hta; simp at hta
        rw [hap]
        exact hs.1 tb.filePath (discover_paths_mem htb)

/-- Counterexample to claim C6 as stated: discover_fuzz_targets keeps the
enumeration order of glob.glob, which is not guaranteed to be sorted by
file path; on this two-file tree the produced target list is not ordered
by file path. -/
theorem claim6_counterexample :
    (discoverFuzzTargets treeUnsorted).map FuzzTarget.filePath
      = ["pkgb/b_test.go", "pkga/a_test.go"] ∧
    ¬ (((discoverFuzzTargets treeUnsorted).map FuzzTarget.filePath).Pairwise
        (fun a b => pathLe a b = true)) := by
  constructor
  · rfl
  · decide

/-- Witness for amended claim C6 on a concrete sorted snapshot. -/
theorem claim6_discovery_deterministic_witness :
    ((discoverFuzzTargets treeSorted).map FuzzTarget.filePath).Pairwise
      (fun a b => pathLe a b = true) :=
  (claim6_discovery_deterministic treeSorted).2 (by decide)

/-- Claim C10: a strictly positive configured jobs value is used verbatim,
any non-positive value falls back to core-count auto-detection, and a
missing core count from os.cpu_count() is treated as 4 cores. -/
theorem claim10_jobs_override (cj : Int) (cores : Nat) :
    (0 < cj → determineJobs cj cores = cj.toNat) ∧
    (cj ≤ 0 → determineJobs cj cores = autoJobs cores) ∧
    cpuCoresOf none = 4 := by
  refine ⟨?_, ?_, rfl⟩ <;> intro h
  · simp [determineJobs, h]
  · have hnot : ¬ (0 < cj) := by omega
    simp [determineJobs, hnot]

/-- Witness for claim C10: a user value larger than the core count is kept
verbatim, and a zero value auto-detects. -/
theorem claim10_jobs_override_witness :
    determineJobs 64 2 = (64 : Int).toNat ∧ determineJobs 0 2 = autoJobs 2 :=
  ⟨(claim10_jobs_override 64 2).1 (by decide),
   (claim10_jobs_override 0 2).2.1 (by decide)⟩

end FuzzSpec
